import Mathlib

/-!  Verification of the scholarag query-construction and hierarchy-resolution core.

Shallow embedding of:
  * `scholarag/hierarchy_resolving.py` (`RegionMeta`, `load_names_mapping`,
    `get_descendants_id`, `get_descendants_names`),
  * `scholarag/utils.py` (`build_search_query`),
  * `scholarag/document_stores/elastic.py` (`postprocess_query`),
  * the metadata-fusion loop of `scholarag/app/routers/retrieval.py`.

Python dicts are modelled as association lists with unique keys in insertion
order; Python exceptions as an `Except` error channel; the unbounded recursion
of `RegionMeta.descendants` gets an explicit fuel argument (running out of fuel
models Python's recursion limit / divergence, an outcome no theorem relies on).
JSON-serialised integer dict keys round-trip through `str`/`int` exactly, so we
keep them as `Int` end to end.  -/

namespace Scholarag

/-- JSON-like values: the Python dicts/lists/strings manipulated by the query
builders.  Objects keep their fields in insertion order, as Python dicts do. -/
inductive JSON where
  | null : JSON
  | str : String → JSON
  | int : Int → JSON
  | arr : List JSON → JSON
  | obj : List (String × JSON) → JSON

/-- A Python dict with keys of type `K`: association list, unique keys,
insertion order. -/
abbrev Dict (K V : Type) := List (K × V)

/-- `d[k]` / `d.get(k)`: first (only) binding of `k`, if any. -/
def dget [BEq K] (m : Dict K V) (k : K) : Option V :=
  (m.find? (fun p => p.1 == k)).map (fun p => p.2)

/-- `d[k] = v` on a Python dict: overwrite in place if the key exists
(keeping its position), else append at the end. -/
def dset [BEq K] : Dict K V → K → V → Dict K V
  | [], k, v => [(k, v)]
  | (k', v') :: rest, k, v =>
    if k' == k then (k, v) :: rest else (k', v') :: dset rest k v

/-- The Python exceptions that the embedded code can raise. -/
inductive PyErr where
  | httpException (status : Int) (detail : String)
  | ioError
  | valueError
  | attributeError
  | keyError
  | outOfFuel
deriving DecidableEq, Repr

/-- `RegionMeta` (hierarchy_resolving.py): the four id-keyed maps plus the
root id and the background id. -/
structure RegionMeta where
  background_id : Int
  root_id : Option Int
  name_ : Dict Int String
  st_level : Dict Int (Option Int)
  parent_id : Dict Int Int
  children_ids : Dict Int (List Int)
deriving DecidableEq, Repr

/-- `RegionMeta.__init__(background_id)`. -/
def RegionMeta.init (background_id : Int) : RegionMeta where
  background_id := background_id
  root_id := none
  name_ := [(background_id, "background")]
  st_level := [(background_id, none)]
  parent_id := [(background_id, background_id)]
  children_ids := [(background_id, [])]

/-- `RegionMeta.children`: `tuple(self.children_ids[region_id])`.
`none` models the `KeyError` raised when `region_id` is not a key. -/
def RegionMeta.children (m : RegionMeta) (region_id : Int) : Option (List Int) :=
  dget m.children_ids region_id

/-- The `for child in children(region_id)` loop body of `iter_descendants`:
for each child `c` — evaluated by `f`, the traversal at the remaining
recursion depth — yield `c` followed by all of `c`'s descendants. -/
def iterDescChildren (f : Int → Except PyErr (List Int)) :
    List Int → Except PyErr (List Int)
  | [] => .ok []
  | c :: cs =>
    match f c with
    | .error e => .error e
    | .ok t =>
      match iterDescChildren f cs with
      | .error e => .error e
      | .ok rest => .ok ((c :: t) ++ rest)

/-- `iter_descendants(region_id)` inside `RegionMeta.descendants`, collected
into the list of yielded ids:
`yield region_id; for child in children(region_id): yield child; yield from iter_descendants(child)`.
A missing `children_ids` entry is the uncaught `KeyError`; exhausted fuel
models exceeding Python's recursion limit. -/
def iterDescendants (m : RegionMeta) : Nat → Int → Except PyErr (List Int)
  | 0, _ => .error .outOfFuel
  | fuel + 1, r =>
    match m.children r with
    | none => .error .keyError
    | some cs =>
      (iterDescChildren (iterDescendants m fuel) cs).map (fun t => r :: t)

/-- `RegionMeta.descendants` on a single integer id:
`set(iter_descendants(id))`, the set enumerated as the deduplicated yield
order of the generator. -/
def RegionMeta.descendants (m : RegionMeta) (fuel : Nat) (r : Int) :
    Except PyErr (List Int) :=
  (iterDescendants m fuel r).map List.dedup

/-- The `for id_ in unique_ids: descendants |= set(iter_descendants(id_))`
loop of `RegionMeta.descendants` on set input, iterated in the order the
enumeration of the Python set happens to produce. -/
def descendantsAux (m : RegionMeta) (fuel : Nat) :
    List Int → Finset Int → Except PyErr (Finset Int)
  | [], acc => .ok acc
  | r :: rest, acc =>
    match iterDescendants m fuel r with
    | .error e => .error e
    | .ok l => descendantsAux m fuel rest (acc ∪ l.toFinset)

/-- `RegionMeta.descendants` on set input (`ids` lists the elements of the
Python set in enumeration order). -/
def RegionMeta.descendantsSet (m : RegionMeta) (fuel : Nat) (ids : List Int) :
    Except PyErr (Finset Int) :=
  descendantsAux m fuel ids ∅

/-- The dictionary written by `RegionMeta.save_config` (and the decoded shape
of `brainregion_hierarchy.json`).  JSON stringifies the integer dict keys and
`load_config` maps `int` over them again; the composite is the identity, so
keys stay `Int` here. -/
structure SavedConfig where
  root_id : Option Int
  names : Dict Int String
  st_level : Dict Int (Option Int)
  parent_id : Dict Int Int
  children_ids : Dict Int (List Int)
deriving DecidableEq, Repr

/-- `RegionMeta.save_config`: the dictionary serialised to the json file. -/
def RegionMeta.save_config (m : RegionMeta) : SavedConfig where
  root_id := m.root_id
  names := m.name_
  st_level := m.st_level
  parent_id := m.parent_id
  children_ids := m.children_ids

/-- State of the hierarchy json file on disk, as seen by `open` + `json.load`:
missing (`IOError`), unparsable (`json.JSONDecodeError`, a `ValueError`), or a
well-formed saved configuration. -/
inductive FileState where
  | missing
  | corrupt
  | good (cfg : SavedConfig)

/-- `RegionMeta.load_config`.  The int-key conversion loop runs over every
top-level entry; when `root_id` is null it evaluates `None.items()` and dies
with an `AttributeError`.  When `root_id` is an integer the loop rebuilds the
four maps with integer keys and the five fields are installed on a fresh
`cls()` instance (whose `background_id` stays at the default `0`). -/
def RegionMeta.load_config (f : FileState) : Except PyErr RegionMeta :=
  match f with
  | .missing => .error .ioError
  | .corrupt => .error .valueError
  | .good cfg =>
    match cfg.root_id with
    | none => .error .attributeError
    | some rid =>
      .ok { background_id := 0
            root_id := some rid
            name_ := cfg.names
            st_level := cfg.st_level
            parent_id := cfg.parent_id
            children_ids := cfg.children_ids }

/-- `load_names_mapping`: load the file, run the same int-key conversion loop
(hence the same `AttributeError` on a null `root_id`), and return
`{id: name.lower()}`. -/
def load_names_mapping (f : FileState) : Except PyErr (Dict Int String) :=
  match f with
  | .missing => .error .ioError
  | .corrupt => .error .valueError
  | .good cfg =>
    match cfg.root_id with
    | none => .error .attributeError
    | some _ => .ok (cfg.names.map (fun p => (p.1, p.2.toLower)))

/-- A value passed as `brain_region_id`: the signature says `int` but callers
may hand a string (`tests` pass `"not-a-int"`). -/
inductive PyVal where
  | vint (n : Int)
  | vstr (s : String)
deriving DecidableEq, Repr

/-- Accumulate the value of a non-empty all-digit character list
(`none` on any non-digit, modelling `int()`'s `ValueError`). -/
def digitsVal : List Char → Nat → Option Nat
  | [], acc => some acc
  | c :: cs, acc =>
    if c.isDigit then digitsVal cs (acc * 10 + (c.toNat - '0'.toNat))
    else none

/-- `int(s)` on a string: optional sign then decimal digits.  (Python also
strips surrounding whitespace and allows underscores; the claims do not touch
those inputs.) -/
def pyStrToInt (s : String) : Option Int :=
  match s.toList with
  | [] => none
  | '-' :: rest =>
    if rest.isEmpty then none
    else (digitsVal rest 0).map (fun n => -(n : Int))
  | '+' :: rest =>
    if rest.isEmpty then none
    else (digitsVal rest 0).map (fun n => (n : Int))
  | l => (digitsVal l 0).map (fun n => (n : Int))

/-- `int(value)`: identity on ints, decimal parse on strings
(`none` models the `ValueError`). -/
def pyInt : PyVal → Option Int
  | .vint n => some n
  | .vstr s => pyStrToInt s

/-- `get_descendants_id`.  `except ValueError` catches both a failed `int()`
and a corrupt json file; `except IOError` catches a missing file; both fall
back to `{brain_region_id}` (the original value).  An `AttributeError` from
the loader or a `KeyError` from the traversal is not caught and propagates. -/
def get_descendants_id (brain_region_id : PyVal) (f : FileState) (fuel : Nat) :
    Except PyErr (List PyVal) :=
  match pyInt brain_region_id with
  | none => .ok [brain_region_id]
  | some n =>
    match RegionMeta.load_config f with
    | .error .ioError => .ok [brain_region_id]
    | .error .valueError => .ok [brain_region_id]
    | .error e => .error e
    | .ok meta =>
      match meta.descendants fuel n with
      | .error .valueError => .ok [brain_region_id]
      | .error e => .error e
      | .ok s => .ok (s.map PyVal.vint)

/-- `get_descendants_names`.  `load_names_mapping` is called outside any
`try`, so its errors propagate.  The inverted index is
`{name: id for id, name in id_to_br.items()}`: on duplicate lowercased names
the later id wins, i.e. lookup scans the reversed list.  `if not region_id`
is Python truthiness, so id `0` also falls back to the input name. -/
def get_descendants_names (incoming_region : String) (f : FileState)
    (fuel : Nat) : Except PyErr (List String) :=
  match load_names_mapping f with
  | .error e => .error e
  | .ok id_to_br =>
    let region_id :=
      (id_to_br.reverse.find? (fun p => p.2 == incoming_region.toLower)).map
        (fun p => p.1)
    match region_id with
    | none => .ok [incoming_region]
    | some rid =>
      if rid = 0 then .ok [incoming_region]
      else
        match get_descendants_id (.vint rid) f fuel with
        | .error e => .error e
        | .ok descendant_ids =>
          let result_regions := descendant_ids.filterMap (fun d =>
            match d with
            | .vint n => dget id_to_br n
            | .vstr _ => none)
          if result_regions.isEmpty then .ok [incoming_region]
          else .ok result_regions

/-! ## `build_search_query` (utils.py) -/

/-- Python truthiness of an optional list argument: `not topics` holds when
the argument is `None` or the empty list. -/
def pyFalsyList (l : Option (List α)) : Bool :=
  match l with
  | none => true
  | some xs => xs.isEmpty

/-- Python `xs[:stop]` with an integer stop (negative stops count from the
end, clamped at zero). -/
def pySlice (xs : List α) (stop : Int) : List α :=
  if 0 ≤ stop then xs.take stop.toNat
  else xs.take (xs.length - (-stop).toNat)

/-- The phrase-match clause built for one topic or region term:
`{"multi_match": {"query": term, "type": "phrase", "fields": ["title", "text"]}}`. -/
def multiMatchClause (query : String) : JSON :=
  JSON.obj [("multi_match", JSON.obj
    [("query", JSON.str query),
     ("type", JSON.str "phrase"),
     ("fields", JSON.arr [JSON.str "title", JSON.str "text"])])]

/-- The `for region in regions: expanded_brain_regions.extend(get_descendants_names(...))`
loop: concatenation of the expansions, errors propagating. -/
def expandAll (f : FileState) (fuel : Nat) :
    List String → Except PyErr (List String)
  | [] => .ok []
  | r :: rest =>
    match get_descendants_names r f fuel with
    | .error e => .error e
    | .ok e =>
      match expandAll f fuel rest with
      | .error e => .error e
      | .ok es => .ok (e ++ es)

/-- The `expanded_brain_regions` value of `build_search_query`: hierarchy
expansion (when requested and `regions` is truthy) followed by the
query-length cap `2 * len(expanded) <= 1024 - len(topics)`, truncating with a
Python slice at `max_query_len // 2` (floor division); otherwise the raw
`regions` (`None` never being iterated downstream, it is modelled as `[]`). -/
def expandedBrainRegions (topics regions : Option (List String))
    (resolve_hierarchy : Bool) (f : FileState) (fuel : Nat) :
    Except PyErr (List String) :=
  if ¬ pyFalsyList regions ∧ resolve_hierarchy then
    match expandAll f fuel (regions.getD []) with
    | .error e => .error e
    | .ok expanded =>
      let max_query_len : Int :=
        if ¬ pyFalsyList topics then 1024 - (topics.getD []).length else 1024
      if 2 * (expanded.length : Int) > max_query_len then
        .ok (pySlice expanded (Int.fdiv max_query_len 2))
      else .ok expanded
  else .ok (regions.getD [])

/-- `filter_query.get("bool", {}).get("must", []) if filter_query else []`.
(A falsy `filter_query` and a well-shaped one with missing keys both give
`[]`; non-dict / non-list values at those positions are outside the shape the
callers produce and also give `[]` here.) -/
def filterMustList (filter_query : Option JSON) : List JSON :=
  match filter_query with
  | some (JSON.obj fq) =>
    match dget fq "bool" with
    | some (JSON.obj b) =>
      match dget b "must" with
      | some (JSON.arr l) => l
      | _ => []
    | _ => []
  | _ => []

/-- `build_search_query(topics, regions, filter_query, resolve_hierarchy)`:
raise 422 when both facets are falsy; phrase-match clause per topic; a single
`{"bool": {"should": [...]}}` group whenever `regions is not None`; splice the
external filter clauses; wrap in `{"query": {"bool": {"must": [...]}}}`. -/
def build_search_query (topics regions : Option (List String))
    (filter_query : Option JSON) (resolve_hierarchy : Bool)
    (f : FileState) (fuel : Nat) : Except PyErr JSON :=
  if pyFalsyList topics ∧ pyFalsyList regions then
    .error (.httpException 422 "Please provide at least one region or topic.")
  else
    let topic_query :=
      match topics with
      | none => []
      | some ts => ts.map multiMatchClause
    match expandedBrainRegions topics regions resolve_hierarchy f fuel with
    | .error e => .error e
    | .ok expanded_brain_regions =>
      let regions_query :=
        match regions with
        | none => []
        | some _ =>
          [JSON.obj [("bool", JSON.obj
            [("should", JSON.arr (expanded_brain_regions.map multiMatchClause))])]]
      let filter_query_list := filterMustList filter_query
      .ok (JSON.obj [("query", JSON.obj [("bool", JSON.obj
        [("must", JSON.arr (topic_query ++ regions_query ++ filter_query_list))])])])

/-- Extract the `query.bool.must` list of a built query. -/
def mustOf (j : JSON) : Option (List JSON) :=
  match j with
  | JSON.obj q =>
    match dget q "query" with
    | some (JSON.obj b) =>
      match dget b "bool" with
      | some (JSON.obj mu) =>
        match dget mu "must" with
        | some (JSON.arr l) => some l
        | _ => none
      | _ => none
    | _ => none
  | _ => none

/-- Extract the `should` list of the region group sitting at position `t` of
the `must` list of a built query. -/
def regionShouldOf (j : JSON) (t : Nat) : Option (List JSON) :=
  match (mustOf j).bind (fun l => l.get? t) with
  | some (JSON.obj g) =>
    match dget g "bool" with
    | some (JSON.obj b) =>
      match dget b "should" with
      | some (JSON.arr l) => some l
      | _ => none
    | _ => none
  | _ => none

/-! ## `postprocess_query` (document_stores/elastic.py) -/

/-- The `special_characters` set literal.  Note that three of its elements —
`"&&"`, `"||"` and the raw string `r"\""` (backslash-quote) — are strings of
length two. -/
def special_characters : List String :=
  ["+", "-", "=", "&&", "||", "!", "\x7b", "\x7d", "[", "]",
   "^", "~", "*", "?", ":", "\\\"", "/", ">", "<"]

/-- `str.replace(target, repl)` for a single-character target, on the
character list of the string. -/
def replaceChar : List Char → Char → List Char → List Char
  | [], _, _ => []
  | c :: cs, t, r => (if c = t then r else [c]) ++ replaceChar cs t r

/-- One iteration of the `for character in intersection` loop: the angle
brackets are stripped (both of them), every other character is replaced by
backslash-character. -/
def escapeStep (s : List Char) (character : Char) : List Char :=
  if character = '>' ∨ character = '<' then
    replaceChar (replaceChar s '>' []) '<' []
  else
    replaceChar s character ['\\', character]

/-- `set(query_str).intersection(special_characters)`: the distinct characters
of the query that occur verbatim among the elements of `special_characters`
(so the two-character elements can never be selected), enumerated in first
occurrence order. -/
def strIntersection (q : List Char) : List Char :=
  q.dedup.filter (fun c => special_characters.contains c.toString)

/-- The string transformation performed by `postprocess_query` on
`query["query_string"]["query"]`. -/
def postprocessQueryString (q : List Char) : List Char :=
  let intersection := strIntersection q
  if intersection.length > 0 then intersection.foldl escapeStep q else q

/-- `postprocess_query(query)`: `None` passes through; when the dict has a
`query_string` clause with a `query` string, that string is rewritten in
place.  (Shapes with a non-dict `query_string` or a non-string `query` are
outside what callers build and pass through unchanged here.) -/
def postprocess_query (query : Option (Dict String JSON)) :
    Option (Dict String JSON) :=
  match query with
  | none => none
  | some q =>
    match dget q "query_string" with
    | some (JSON.obj qs) =>
      match dget qs "query" with
      | some (JSON.str s) =>
        some (dset q "query_string" (JSON.obj (dset qs "query"
          (JSON.str (String.mk (postprocessQueryString s.toList))))))
      | _ => some q
    | _ => some q

/-- The per-character effect the loop actually has: strip the angle brackets,
backslash-escape the single-character members of `special_characters`, leave
everything else (including `&`, `|` and `"`) alone. -/
def escapeChar (c : Char) : List Char :=
  if c = '>' ∨ c = '<' then []
  else if special_characters.contains c.toString then ['\\', c]
  else [c]

/-- `escapeChar` mapped over a string. -/
def escapeMap : List Char → List Char
  | [] => []
  | c :: cs => escapeChar c ++ escapeMap cs

/-! ## Metadata fusion (app/routers/retrieval.py) -/

/-- One retrieved context, with the keys the fusion loop reads.  Keys read
with `context[...]` are mandatory in the store schema; `journal`, `date` and
`doi` may be null. -/
structure Context where
  article_id : String
  doi : Option String
  pubmed_id : Option String
  title : String
  authors : List String
  journal : Option String
  date : Option String
  section_ : String
  text : String
  article_type : Option String
  document_id : String
deriving DecidableEq, Repr

/-- One `ParagraphMetadata` response record, as assembled by the fusion
loop (no-reranker path: `context_id = i`, `reranking_score = None`). -/
structure ParagraphMetadata where
  article_title : String
  section_ : String
  paragraph : String
  journal_issn : Option String
  date : Option String
  article_id : String
  ds_document_id : String
  article_doi : Option String
  pubmed_id : Option String
  article_authors : List String
  article_type : Option String
  context_id : Nat
  reranking_score : Option Rat
  abstract : Option String
  journal_name : Option String
  impact_factor : Option Rat
  cited_by : Option Int
deriving DecidableEq, Repr

/-- The per-key metadata sources behind `MetaDataRetriever` (external
citation/journal APIs, the journals index, abstract reconstruction). -/
structure MetaOracle where
  abstract : String → Option String
  citation : String → Option Int
  journal_name : String → Option String
  impact : String → Option Rat

/-- The second `retrieve_metadata` result: the citation-count and
journal-name maps are only present when external APIs are enabled (the router
reads them with `.get(..., {})`), the impact-factor map always is (read with
`[...]`). -/
structure FetchedMetadata where
  get_citation_count : Option (Dict (Option String) (Option Int))
  get_journal_name : Option (Dict (Option String) (Option String))
  get_impact_factors : Dict (Option String) (Option Rat)

/-- Modelled from the spec: `MetaDataRetriever.retrieve_metadata` with
`to_retrieve=["abstracts"]` (module `scholarag.retrieve_metadata`, not under
`src/`).  Per §4.5/§5 it reconstructs an abstract slot for every distinct
`article_id` of the batch, the value possibly null; abstract lookup is
internal and independent of the external-API flag. -/
def retrieve_metadata_abstracts (contexts : List Context)
    (oracle : MetaOracle) : Dict String (Option String) :=
  (contexts.map (fun c => c.article_id)).dedup.map
    (fun a => (a, oracle.abstract a))

/-- Modelled from the spec: `MetaDataRetriever.retrieve_metadata` with
`to_retrieve=["citation_counts", "impact_factors", "journal_names"]` (module
`scholarag.retrieve_metadata`, not under `src/`).  Per §4.5/§5/§6 it fans out
over the distinct dois/issns of the batch and returns one entry per queried
key whose value may be null (a null issn has no impact factor or journal
name, a null doi no citation count); the external maps are absent when
external APIs are disabled, while impact factors come from the internal
journals index. -/
def retrieve_metadata_rest (contexts : List Context) (external_apis : Bool)
    (oracle : MetaOracle) : FetchedMetadata where
  get_citation_count :=
    if external_apis then
      some ((contexts.map (fun c => c.doi)).dedup.map
        (fun d => (d, d.bind oracle.citation)))
    else none
  get_journal_name :=
    if external_apis then
      some ((contexts.map (fun c => c.journal)).dedup.map
        (fun j => (j, j.bind oracle.journal_name)))
    else none
  get_impact_factors :=
    (contexts.map (fun c => c.journal)).dedup.map
      (fun j => (j, j.bind oracle.impact))

/-- The abstract-attachment comprehension of the `retrieval` endpoint:
`[{**context, "abstract": abstracts[context.get("article_id")]} for context in contexts]`.
The `[...]` lookup raises `KeyError` on a missing key. -/
def attachAbstracts : List Context → Dict String (Option String) →
    Except PyErr (List (Context × Option String))
  | [], _ => .ok []
  | c :: rest, abstracts =>
    match dget abstracts c.article_id with
    | none => .error .keyError
    | some a =>
      match attachAbstracts rest abstracts with
      | .error e => .error e
      | .ok out => .ok ((c, a) :: out)

/-- The `for i, context in enumerate(contexts)` response-building loop of the
`retrieval` endpoint (no-reranker path, so `indices[i] = i` and scores are
null).  `journal_names.get` and `citedby_counts.get` give null on a missing
key; `impact_factors[journal_issn]` raises `KeyError`. -/
def fuseLoop (citedby_counts : Dict (Option String) (Option Int))
    (journal_names : Dict (Option String) (Option String))
    (impact_factors : Dict (Option String) (Option Rat)) :
    List (Context × Option String) → Nat → Except PyErr (List ParagraphMetadata)
  | [], _ => .ok []
  | (c, ab) :: rest, i =>
    match dget impact_factors c.journal with
    | none => .error .keyError
    | some impact =>
      match fuseLoop citedby_counts journal_names impact_factors rest (i + 1) with
      | .error e => .error e
      | .ok out =>
        .ok ({ article_title := c.title
               section_ := c.section_
               paragraph := c.text
               journal_issn := c.journal
               date := c.date
               article_id := c.article_id
               ds_document_id := c.document_id
               article_doi := c.doi
               pubmed_id := c.pubmed_id
               article_authors := c.authors
               article_type := c.article_type
               context_id := i
               reranking_score := none
               abstract := ab
               journal_name := (dget journal_names c.journal).join
               impact_factor := impact
               cited_by := (dget citedby_counts c.doi).join } :: out)

/-- The metadata-fusion stage of the `retrieval` endpoint on the no-reranker
path: attach abstracts, then build one response record per context. -/
def retrievalFusion (contexts : List Context)
    (abstracts : Dict String (Option String)) (fetched : FetchedMetadata) :
    Except PyErr (List ParagraphMetadata) :=
  match attachAbstracts contexts abstracts with
  | .error e => .error e
  | .ok enriched =>
    fuseLoop (fetched.get_citation_count.getD [])
      (fetched.get_journal_name.getD [])
      fetched.get_impact_factors enriched 0

/-! ## Theorems -/

/-- The region OR-group clause wrapping a list of phrase-match clauses. -/
def regionGroup (terms : List String) : JSON :=
  JSON.obj [("bool", JSON.obj
    [("should", JSON.arr (terms.map multiMatchClause))])]

lemma mustOf_built (l : List JSON) :
    mustOf (JSON.obj [("query", JSON.obj [("bool", JSON.obj
      [("must", JSON.arr l)])])]) = some l := rfl

/-- C1: with the precondition satisfied and the (possibly hierarchy-expanded,
capped) region terms computed successfully, `build_search_query` returns
`{query: {bool: {must: [...]}}}` whose `must` list is: one phrase-match clause
per topic in input order, then — exactly when `regions` was supplied — one
`{bool: {should: [...]}}` group with one phrase-match clause per region term,
then the clauses of `filter_query`'s `bool.must`, unchanged and in order. -/
theorem build_search_query_shape (topics regions : Option (List String))
    (fq : Option JSON) (rh : Bool) (f : FileState) (fuel : Nat)
    (terms : List String)
    (h1 : ¬ (pyFalsyList topics ∧ pyFalsyList regions))
    (h2 : expandedBrainRegions topics regions rh f fuel = .ok terms) :
    ∃ q, build_search_query topics regions fq rh f fuel = .ok q ∧
      mustOf q = some ((topics.getD []).map multiMatchClause
        ++ (match regions with
            | none => []
            | some _ => [regionGroup terms])
        ++ filterMustList fq) := by
  refine ⟨JSON.obj [("query", JSON.obj [("bool", JSON.obj
      [("must", JSON.arr ((topics.getD []).map multiMatchClause
        ++ (match regions with
            | none => []
            | some _ => [regionGroup terms])
        ++ filterMustList fq))])])], ?_, mustOf_built _⟩
  rw [build_search_query.eq_def, if_neg h1, h2]
  cases topics <;> cases regions <;> rfl

/-- Witness for C1 at a concrete call. -/
theorem build_search_query_shape_witness :
    (¬ (pyFalsyList (some ["health"]) ∧ pyFalsyList (some ["asia"]))
      ∧ expandedBrainRegions (some ["health"]) (some ["asia"]) false
          .missing 0 = .ok ["asia"])
    ∧ ∃ q, build_search_query (some ["health"]) (some ["asia"])
        (some (JSON.obj [("bool", JSON.obj [("must",
          JSON.arr [JSON.obj [("term", JSON.str "active")]])])]))
        false .missing 0 = .ok q ∧
      mustOf q = some (((some ["health"] : Option (List String)).getD []).map
          multiMatchClause
        ++ (match (some ["asia"] : Option (List String)) with
            | none => []
            | some _ => [regionGroup ["asia"]])
        ++ filterMustList (some (JSON.obj [("bool", JSON.obj [("must",
          JSON.arr [JSON.obj [("term", JSON.str "active")]])])]))) := by
  refine ⟨⟨by simp [pyFalsyList], rfl⟩, ?_⟩
  exact build_search_query_shape (some ["health"]) (some ["asia"])
    (some (JSON.obj [("bool", JSON.obj [("must",
      JSON.arr [JSON.obj [("term", JSON.str "active")]])])]))
    false .missing 0 ["asia"] (by simp [pyFalsyList]) rfl

/-- C10: with non-empty topics and `regions` present but empty, the `must`
list carries — after the topic clauses — a `{bool: {should: []}}` group with
zero alternatives, because the group is emitted whenever `regions` is not
absent. -/
theorem build_search_query_empty_regions_group (ts : List String)
    (fq : Option JSON) (rh : Bool) (f : FileState) (fuel : Nat)
    (h : ts ≠ []) :
    ∃ q, build_search_query (some ts) (some []) fq rh f fuel = .ok q ∧
      mustOf q = some (ts.map multiMatchClause
        ++ [JSON.obj [("bool", JSON.obj [("should", JSON.arr [])])]]
        ++ filterMustList fq) := by
  have h1 : ¬ (pyFalsyList (some ts) ∧ pyFalsyList (some ([] : List String))) := by
    simp [pyFalsyList, List.isEmpty_iff, h]
  have h2 : expandedBrainRegions (some ts) (some []) rh f fuel = .ok [] := by
    simp [expandedBrainRegions, pyFalsyList]
  obtain ⟨q, hq, hm⟩ :=
    build_search_query_shape (some ts) (some []) fq rh f fuel [] h1 h2
  exact ⟨q, hq, hm⟩

/-- Witness for C10 at a concrete call (both values of `resolve_hierarchy`). -/
theorem build_search_query_empty_regions_group_witness :
    (["science", "tech"] ≠ ([] : List String))
    ∧ (∃ q, build_search_query (some ["science", "tech"]) (some []) none true
        .missing 3 = .ok q ∧
      mustOf q = some (["science", "tech"].map multiMatchClause
        ++ [JSON.obj [("bool", JSON.obj [("should", JSON.arr [])])]]
        ++ filterMustList none)) :=
  ⟨by decide, build_search_query_empty_regions_group ["science", "tech"]
    none true .missing 3 (by decide)⟩

/-- Whether an exception is FastAPI's `HTTPException`. -/
def PyErr.isHttp : PyErr → Bool
  | .httpException _ _ => true
  | _ => false

/-- The computation did not fail with an `HTTPException`. -/
def noHttpErr : Except PyErr α → Prop
  | .ok _ => True
  | .error e => e.isHttp = false

lemma noHttpErr_iterDescChildren (m : RegionMeta) (fuel : Nat)
    (hA : ∀ r, noHttpErr (iterDescendants m fuel r)) :
    ∀ cs, noHttpErr (iterDescChildren (iterDescendants m fuel) cs) := by
  intro cs
  induction cs with
  | nil => rw [iterDescChildren]; trivial
  | cons c cs ih =>
    rw [iterDescChildren]
    split
    · next e1 hc => have h := hA c; rw [hc] at h; exact h
    · split
      · next e2 hl => rw [hl] at ih; exact ih
      · trivial

lemma noHttpErr_iterDescendants (m : RegionMeta) :
    ∀ fuel r, noHttpErr (iterDescendants m fuel r) := by
  intro fuel
  induction fuel with
  | zero => intro r; rw [iterDescendants]; exact rfl
  | succ fuel ih =>
    intro r
    rw [iterDescendants]
    split
    · exact rfl
    · next cs hc =>
      have h := noHttpErr_iterDescChildren m fuel ih cs
      cases hl : iterDescChildren (iterDescendants m fuel) cs with
      | error e1 => rw [hl] at h; simpa [Except.map, noHttpErr] using h
      | ok t => simp [hl, Except.map, noHttpErr]

lemma noHttpErr_descendants (m : RegionMeta) (fuel : Nat) (r : Int) :
    noHttpErr (m.descendants fuel r) := by
  rw [RegionMeta.descendants]
  have h := noHttpErr_iterDescendants m fuel r
  cases hl : iterDescendants m fuel r with
  | error e1 => rw [hl] at h; simpa [Except.map, noHttpErr] using h
  | ok t => simp [hl, Except.map, noHttpErr]

lemma noHttpErr_load_config (f : FileState) :
    noHttpErr (RegionMeta.load_config f) := by
  rw [RegionMeta.load_config.eq_def]
  split
  · exact rfl
  · exact rfl
  · split
    · exact rfl
    · trivial

lemma noHttpErr_load_names_mapping (f : FileState) :
    noHttpErr (load_names_mapping f) := by
  rw [load_names_mapping.eq_def]
  split
  · exact rfl
  · exact rfl
  · split
    · exact rfl
    · trivial

lemma noHttpErr_get_descendants_id (b : PyVal) (f : FileState) (fuel : Nat) :
    noHttpErr (get_descendants_id b f fuel) := by
  rw [get_descendants_id]
  split
  · trivial
  · next n heqp =>
    split
    · trivial
    · trivial
    · next e h1 h2 heq =>
      have h := noHttpErr_load_config f; rw [heq] at h; exact h
    · next meta heq =>
      split
      · trivial
      · next e hne heq2 =>
        have h := noHttpErr_descendants meta fuel n
        rw [heq2] at h; exact h
      · trivial

lemma noHttpErr_get_descendants_names (s : String) (f : FileState)
    (fuel : Nat) : noHttpErr (get_descendants_names s f fuel) := by
  rw [get_descendants_names]
  split
  · next e he =>
    have h := noHttpErr_load_names_mapping f; rw [he] at h; exact h
  · next id_to_br hl =>
    dsimp only
    split
    · trivial
    · next rid heqr =>
      split
      · trivial
      · split
        · next e he =>
          have h := noHttpErr_get_descendants_id (PyVal.vint rid) f fuel
          rw [he] at h; exact h
        · split
          · trivial
          · trivial

lemma noHttpErr_expandAll (f : FileState) (fuel : Nat) :
    ∀ rs, noHttpErr (expandAll f fuel rs) := by
  intro rs
  induction rs with
  | nil => rw [expandAll]; trivial
  | cons r rest ih =>
    rw [expandAll]
    split
    · next e he =>
      have h := noHttpErr_get_descendants_names r f fuel
      rw [he] at h; exact h
    · split
      · next e he => rw [he] at ih; exact ih
      · trivial

lemma noHttpErr_expandedBrainRegions (topics regions : Option (List String))
    (rh : Bool) (f : FileState) (fuel : Nat) :
    noHttpErr (expandedBrainRegions topics regions rh f fuel) := by
  rw [expandedBrainRegions]
  split
  · split
    · next e he =>
      have h := noHttpErr_expandAll f fuel (regions.getD [])
      rw [he] at h; exact h
    · dsimp only
      split <;> split <;> trivial
  · trivial

/-- With the expansion succeeding, the cap logic itself never fails. -/
lemma expandedBrainRegions_ok_of_expandAll_ok
    (topics regions : Option (List String)) (rh : Bool) (f : FileState)
    (fuel : Nat)
    (hexp : rh = true → ¬ pyFalsyList regions →
      ∃ x, expandAll f fuel (regions.getD []) = .ok x) :
    ∃ terms, expandedBrainRegions topics regions rh f fuel = .ok terms := by
  rw [expandedBrainRegions]
  by_cases hb : ¬ pyFalsyList regions ∧ rh = true
  · obtain ⟨x, hx⟩ := hexp hb.2 hb.1
    rw [if_pos (by simpa using hb), hx]
    dsimp only
    split <;> split <;> exact ⟨_, rfl⟩
  · rw [if_neg (by simpa using hb)]
    exact ⟨_, rfl⟩

/-- C6 (amended): `build_search_query` raises the 422 `HTTPException` with the
fixed message exactly when both `topics` and `regions` are empty or absent;
otherwise that error never occurs, and a query is returned provided the
hierarchy expansion (reached only when `resolve_hierarchy` is set and
`regions` is non-empty) does not itself fail on the hierarchy file. -/
theorem build_search_query_invalid_iff (topics regions : Option (List String))
    (fq : Option JSON) (rh : Bool) (f : FileState) (fuel : Nat) :
    (build_search_query topics regions fq rh f fuel =
        .error (.httpException 422 "Please provide at least one region or topic.")
      ↔ (pyFalsyList topics ∧ pyFalsyList regions))
    ∧ (¬ (pyFalsyList topics ∧ pyFalsyList regions) →
        (rh = true → ¬ pyFalsyList regions →
          ∃ x, expandAll f fuel (regions.getD []) = .ok x) →
        ∃ q, build_search_query topics regions fq rh f fuel = .ok q) := by
  constructor
  · constructor
    · intro h
      by_contra hc
      rw [build_search_query.eq_def, if_neg hc] at h
      cases he : expandedBrainRegions topics regions rh f fuel with
      | error e1 =>
        rw [he] at h
        simp only [Except.error.injEq] at h
        have hn := noHttpErr_expandedBrainRegions topics regions rh f fuel
        rw [he, h] at hn
        simp [noHttpErr, PyErr.isHttp] at hn
      | ok terms => rw [he] at h; simp at h
    · intro h
      rw [build_search_query.eq_def, if_pos h]
  · intro hc hexp
    obtain ⟨terms, hterms⟩ :=
      expandedBrainRegions_ok_of_expandAll_ok topics regions rh f fuel hexp
    obtain ⟨q, hq, -⟩ :=
      build_search_query_shape topics regions fq rh f fuel terms hc hterms
    exact ⟨q, hq⟩

/-- Witness for C6 at a concrete call. -/
theorem build_search_query_invalid_iff_witness :
    ((build_search_query (some ["t"]) none none false .missing 0 =
        .error (.httpException 422 "Please provide at least one region or topic.")
      ↔ (pyFalsyList (some ["t"]) ∧ pyFalsyList (none : Option (List String))))
    ∧ (¬ (pyFalsyList (some ["t"]) ∧ pyFalsyList (none : Option (List String))) →
        (false = true → ¬ pyFalsyList (none : Option (List String)) →
          ∃ x, expandAll .missing 0 ((none : Option (List String)).getD []) = .ok x) →
        ∃ q, build_search_query (some ["t"]) none none false .missing 0 = .ok q)) :=
  build_search_query_invalid_iff (some ["t"]) none none false .missing 0

/-- Counterexample to C6 as stated: `topics` absent, `regions = ["x"]`
non-empty, yet with `resolve_hierarchy` and a missing hierarchy file no query
is returned — the uncaught `IOError` of `load_names_mapping` propagates. -/
theorem build_search_query_invalid_iff_counterexample :
    build_search_query none (some ["x"]) none true .missing 1 =
      .error .ioError := rfl

/-- A minimal well-formed hierarchy file whose name index is empty. -/
def tinyHierarchyFile : FileState :=
  .good { root_id := some 0, names := [], st_level := [], parent_id := [],
          children_ids := [] }

/-- `regionShouldOf` applied under the `Except`. -/
def regionShouldAt (t : Nat) (r : Except PyErr JSON) :
    Except PyErr (Option (List JSON)) :=
  r.map (fun q => regionShouldOf q t)

lemma regionShouldOf_of_mustOf (q : JSON) (ts fl : List JSON)
    (terms : List String)
    (h : mustOf q = some (ts ++ [regionGroup terms] ++ fl)) :
    regionShouldOf q ts.length = some (terms.map multiMatchClause) := by
  have hg : (ts ++ [regionGroup terms] ++ fl).get? ts.length =
      some (regionGroup terms) := by
    rw [List.append_assoc, List.get?_append_right (Nat.le_refl ts.length)]
    simp
  rw [regionShouldOf.eq_def, h]
  dsimp only [Option.bind]
  rw [hg]
  rfl

/-- The `expanded_brain_regions` value under the cap, for at most 1024
topics: keep the whole expansion when `2·|E| + T ≤ 1024`, else its first
`(1024 − T)/2` elements. -/
lemma expandedBrainRegions_cap (topics regions : Option (List String))
    (f : FileState) (fuel : Nat) (E : List String)
    (hr : ¬ pyFalsyList regions)
    (hE : expandAll f fuel (regions.getD []) = .ok E)
    (hT : (topics.getD []).length ≤ 1024) :
    expandedBrainRegions topics regions true f fuel =
      .ok (if 2 * E.length + (topics.getD []).length ≤ 1024 then E
           else E.take ((1024 - (topics.getD []).length) / 2)) := by
  have hmq : (if ¬ pyFalsyList topics
        then 1024 - ((topics.getD []).length : Int) else 1024) =
      1024 - ((topics.getD []).length : Int) := by
    by_cases hp : pyFalsyList topics
    · rw [if_neg (by simp [hp])]
      have hz : (topics.getD []).length = 0 := by
        cases topics with
        | none => rfl
        | some ts =>
          simpa [pyFalsyList, List.isEmpty_iff, List.length_eq_zero] using hp
      rw [hz]
      simp
    · rw [if_pos (by simpa using hp)]
  rw [expandedBrainRegions, if_pos ⟨hr, rfl⟩, hE]
  dsimp only
  rw [hmq]
  have hcast : (1024 : Int) - ((topics.getD []).length : Int) =
      ((1024 - (topics.getD []).length : Nat) : Int) := by
    omega
  by_cases hle : 2 * E.length + (topics.getD []).length ≤ 1024
  · rw [if_neg (by omega), if_pos hle]
  · rw [if_pos (by omega), if_neg hle]
    congr 1
    rw [hcast, Int.fdiv_eq_ediv _ (by norm_num)]
    rw [pySlice, if_pos (by omega)]
    congr 1

/-- C2 (amended): with `resolve_hierarchy`, non-empty regions, a successful
expansion `E`, and at most 1024 topics, the region terms placed in the query
are `E` itself when `2·|E| + T ≤ 1024` and otherwise the prefix of the first
`(1024 − T)/2` terms, a choice of `N` with `2·N + T ≤ 1024`; no error is
raised on exceeding the cap.  (As stated the claim also covers `T > 1024`,
where the code instead slices with a negative Python stop — see the
counterexample.) -/
theorem build_search_query_region_cap (topics regions : Option (List String))
    (fq : Option JSON) (f : FileState) (fuel : Nat) (E : List String)
    (hr : ¬ pyFalsyList regions)
    (hE : expandAll f fuel (regions.getD []) = .ok E)
    (hT : (topics.getD []).length ≤ 1024) :
    ∃ q, build_search_query topics regions fq true f fuel = .ok q ∧
      ((2 * E.length + (topics.getD []).length ≤ 1024 ∧
        regionShouldOf q (topics.getD []).length =
          some (E.map multiMatchClause))
       ∨ (¬ (2 * E.length + (topics.getD []).length ≤ 1024) ∧
          regionShouldOf q (topics.getD []).length =
            some ((E.take ((1024 - (topics.getD []).length) / 2)).map
              multiMatchClause) ∧
          2 * ((1024 - (topics.getD []).length) / 2) +
            (topics.getD []).length ≤ 1024)) := by
  have hpre : ¬ (pyFalsyList topics ∧ pyFalsyList regions) := by
    intro hb
    exact hr hb.2
  have hterms := expandedBrainRegions_cap topics regions f fuel E hr hE hT
  obtain ⟨q, hq, hm⟩ := build_search_query_shape topics regions fq true f fuel
    _ hpre hterms
  refine ⟨q, hq, ?_⟩
  cases regions with
  | none => exact absurd rfl hr
  | some rs =>
    have hmust : mustOf q = some (((topics.getD []).map multiMatchClause)
        ++ [regionGroup (if 2 * E.length + (topics.getD []).length ≤ 1024
            then E
            else E.take ((1024 - (topics.getD []).length) / 2))]
        ++ filterMustList fq) := hm
    have hshould := regionShouldOf_of_mustOf q _ _ _ hmust
    rw [List.length_map] at hshould
    by_cases hle : 2 * E.length + (topics.getD []).length ≤ 1024
    · left
      refine ⟨hle, ?_⟩
      rw [if_pos hle] at hshould
      exact hshould
    · right
      refine ⟨hle, ?_, by omega⟩
      rw [if_neg hle] at hshould
      exact hshould

/-- Witness for C2 (amended) at a concrete call. -/
theorem build_search_query_region_cap_witness :
    (¬ pyFalsyList (some ["r"])
      ∧ expandAll tinyHierarchyFile 1
          ((some ["r"] : Option (List String)).getD []) = .ok ["r"]
      ∧ (((none : Option (List String)).getD []).length ≤ 1024))
    ∧ ∃ q, build_search_query none (some ["r"]) none true
        tinyHierarchyFile 1 = .ok q ∧
      ((2 * (["r"] : List String).length +
          ((none : Option (List String)).getD []).length ≤ 1024 ∧
        regionShouldOf q ((none : Option (List String)).getD []).length =
          some ((["r"] : List String).map multiMatchClause))
       ∨ (¬ (2 * (["r"] : List String).length +
            ((none : Option (List String)).getD []).length ≤ 1024) ∧
          regionShouldOf q ((none : Option (List String)).getD []).length =
            some (((["r"] : List String).take
              ((1024 - ((none : Option (List String)).getD []).length) / 2)).map
              multiMatchClause) ∧
          2 * ((1024 - ((none : Option (List String)).getD []).length) / 2) +
            ((none : Option (List String)).getD []).length ≤ 1024)) :=
  ⟨⟨by decide, rfl, by decide⟩,
    build_search_query_region_cap none (some ["r"]) none tinyHierarchyFile 1
      ["r"] (by decide) rfl (by decide)⟩

set_option maxRecDepth 40000 in
/-- Counterexample to C2 as stated: with 1025 topics and one region that
expands to itself, the call succeeds and places zero region terms — the
prefix of length `N = 0` — yet no `N` satisfies `2·N + 1025 ≤ 1024` (in
particular `N = 0` does not), because the Python slice stop
`max_query_len // 2` is negative here. -/
theorem build_search_query_region_cap_counterexample :
    regionShouldAt 1025 (build_search_query (some (List.replicate 1025 "t"))
        (some ["r"]) none true tinyHierarchyFile 1) = .ok (some [])
    ∧ expandAll tinyHierarchyFile 1 ["r"] = .ok ["r"]
    ∧ ¬ (2 * 0 + 1025 ≤ 1024) :=
  ⟨rfl, rfl, by omega⟩

/-! ### The escaping loop acts character-wise -/

/-- The `for character in intersection` loop, folded from a given enumeration
of the intersection. -/
def applyAll (ts : List Char) (s : List Char) : List Char :=
  ts.foldl escapeStep s

lemma replaceChar_append (a b : List Char) (t : Char) (r : List Char) :
    replaceChar (a ++ b) t r = replaceChar a t r ++ replaceChar b t r := by
  induction a with
  | nil => rfl
  | cons c cs ih => simp [replaceChar, ih, List.append_assoc]

lemma escapeStep_append (a b : List Char) (t : Char) :
    escapeStep (a ++ b) t = escapeStep a t ++ escapeStep b t := by
  by_cases h : t = '>' ∨ t = '<' <;>
    simp [escapeStep, h, replaceChar_append]

lemma applyAll_append (ts : List Char) :
    ∀ a b, applyAll ts (a ++ b) = applyAll ts a ++ applyAll ts b := by
  induction ts with
  | nil => intro a b; rfl
  | cons t ts ih =>
    intro a b
    show applyAll ts (escapeStep (a ++ b) t) =
      applyAll ts (escapeStep a t) ++ applyAll ts (escapeStep b t)
    rw [escapeStep_append, ih]

lemma escapeStep_nil (t : Char) : escapeStep [] t = [] := by
  by_cases h : t = '>' ∨ t = '<' <;> simp [escapeStep, h, replaceChar]

lemma applyAll_nil (ts : List Char) : applyAll ts [] = [] := by
  induction ts with
  | nil => rfl
  | cons t ts ih =>
    show applyAll ts (escapeStep [] t) = []
    rw [escapeStep_nil, ih]

lemma escapeStep_singleton (c t : Char) :
    escapeStep [c] t =
      if t = '>' ∨ t = '<' then (if c = '>' ∨ c = '<' then [] else [c])
      else (if c = t then ['\\', t] else [c]) := by
  by_cases h : t = '>' ∨ t = '<'
  · rw [escapeStep, if_pos h, if_pos h]
    by_cases h1 : c = '>'
    · simp [replaceChar, h1]
    · by_cases h2 : c = '<' <;> simp [replaceChar, h1, h2]
  · rw [escapeStep, if_neg h, if_neg h]
    by_cases h2 : c = t <;> simp [replaceChar, h2]

lemma applyAll_singleton :
    ∀ ts : List Char, ts.Nodup → '\\' ∉ ts → ∀ c,
      applyAll ts [c] =
        if (c = '>' ∨ c = '<') ∧ (∃ t ∈ ts, t = '>' ∨ t = '<') then []
        else if c ∈ ts ∧ ¬ (c = '>' ∨ c = '<') then ['\\', c]
        else [c] := by
  intro ts
  induction ts with
  | nil => intro _ _ c; simp [applyAll]
  | cons t ts ih =>
    intro hnodup hbs c
    have hnd : ts.Nodup := (List.nodup_cons.mp hnodup).2
    have htn : t ∉ ts := (List.nodup_cons.mp hnodup).1
    have hbs' : '\\' ∉ ts := fun h => hbs (List.mem_cons_of_mem t h)
    have hbt : t ≠ '\\' := fun h => hbs (h ▸ List.mem_cons_self t ts)
    have hstep : applyAll (t :: ts) [c] = applyAll ts (escapeStep [c] t) := rfl
    rw [hstep, escapeStep_singleton]
    by_cases hta : t = '>' ∨ t = '<'
    · rw [if_pos hta]
      by_cases hca : c = '>' ∨ c = '<'
      · rw [if_pos hca, applyAll_nil,
          if_pos ⟨hca, ⟨t, List.mem_cons_self t ts, hta⟩⟩]
      · rw [if_neg hca, ih hnd hbs' c]
        have hct : c ≠ t := fun h => hca (h ▸ hta)
        simp [hca, hct, List.mem_cons]
    · rw [if_neg hta]
      by_cases hct : c = t
      · subst hct
        rw [if_pos rfl,
          show (['\\', c] : List Char) = ['\\'] ++ [c] from rfl,
          applyAll_append, ih hnd hbs' '\\', ih hnd hbs' c]
        have hbsa : ¬ ('\\' = '>' ∨ '\\' = '<') := by decide
        simp [hbsa, hbs', hta, htn, List.mem_cons]
      · rw [if_neg hct, ih hnd hbs' c]
        simp [hct, hta, List.mem_cons]

lemma escapeMap_cons (c : Char) (cs : List Char) :
    escapeMap (c :: cs) = escapeChar c ++ escapeMap cs := rfl

lemma escapeMap_id :
    ∀ s : List Char, (∀ c ∈ s, special_characters.contains c.toString = false) →
      escapeMap s = s := by
  intro s
  induction s with
  | nil => intro _; rfl
  | cons c cs ih =>
    intro h
    have hc := h c (List.mem_cons_self c cs)
    have hang : ¬ (c = '>' ∨ c = '<') := by
      intro hca
      cases hca with
      | inl h1 => subst h1; exact absurd hc (by decide)
      | inr h1 => subst h1; exact absurd hc (by decide)
    rw [escapeMap_cons, escapeChar, if_neg hang, if_neg (by rw [hc]; simp),
      ih (fun d hd => h d (List.mem_cons_of_mem c hd))]
    rfl

/-- The whole loop of `postprocess_query` is the character-wise map
`escapeChar`: angle brackets stripped, the single-character reserved tokens
backslash-escaped, everything else — including `&`, `|` and `"` — intact. -/
lemma postprocessQueryString_eq_escapeMap (q : List Char) :
    postprocessQueryString q = escapeMap q := by
  rw [postprocessQueryString]
  have hnodup : (strIntersection q).Nodup :=
    List.Nodup.filter _ (List.nodup_dedup q)
  have hbs : '\\' ∉ strIntersection q := by
    intro h
    have h2 := (List.mem_filter.mp h).2
    exact absurd h2 (by decide)
  have hspec : ∀ c ∈ q, special_characters.contains c.toString = true →
      c ∈ strIntersection q := by
    intro c hc hs
    exact List.mem_filter.mpr ⟨List.mem_dedup.mpr hc, hs⟩
  have hnotin : ∀ c, special_characters.contains c.toString = false →
      c ∉ strIntersection q := by
    intro c hs h
    have h2 := (List.mem_filter.mp h).2
    rw [hs] at h2
    exact Bool.false_ne_true h2
  have hmain : ∀ s : List Char, (∀ c ∈ s, c ∈ q) →
      applyAll (strIntersection q) s = escapeMap s := by
    intro s
    induction s with
    | nil => intro _; rw [applyAll_nil]; rfl
    | cons c cs ih =>
      intro hsub
      have hc : c ∈ q := hsub c (List.mem_cons_self c cs)
      rw [show (c :: cs : List Char) = [c] ++ cs from rfl, applyAll_append,
        ih (fun d hd => hsub d (List.mem_cons_of_mem c hd)),
        show escapeMap ([c] ++ cs) = escapeChar c ++ escapeMap cs from rfl]
      congr 1
      rw [applyAll_singleton (strIntersection q) hnodup hbs c]
      by_cases hsp : special_characters.contains c.toString = true
      · by_cases hang : c = '>' ∨ c = '<'
        · rw [if_pos ⟨hang, ⟨c, hspec c hc hsp, hang⟩⟩, escapeChar,
            if_pos hang]
        · rw [if_neg (fun h => hang h.1),
            if_pos ⟨hspec c hc hsp, hang⟩, escapeChar, if_neg hang,
            if_pos hsp]
      · have hspf : special_characters.contains c.toString = false :=
          Bool.eq_false_iff.mpr hsp
        have hang : ¬ (c = '>' ∨ c = '<') := by
          intro hca
          cases hca with
          | inl h1 => subst h1; exact absurd hspf (by decide)
          | inr h1 => subst h1; exact absurd hspf (by decide)
        rw [if_neg (fun h => hang h.1),
          if_neg (fun h => hnotin c hspf h.1), escapeChar, if_neg hang,
          if_neg (by rw [hspf]; simp)]
  by_cases hlen : (strIntersection q).length > 0
  · rw [if_pos hlen]
    exact hmain q (fun c hc => hc)
  · rw [if_neg hlen]
    have hempty : strIntersection q = [] :=
      List.length_eq_zero.mp (by omega)
    refine (escapeMap_id q (fun c hc => ?_)).symm
    by_cases hs : special_characters.contains c.toString = true
    · exact absurd (hempty ▸ hspec c hc hs) (List.not_mem_nil c)
    · exact Bool.eq_false_iff.mpr hs

/-- C3 (amended): on a query dict with a `query_string.query` text `s`, the
postprocessing rewrites `s` character-wise: every occurrence of the
single-character reserved tokens `+ - = ! { } [ ] ^ ~ * ? : /` is
backslash-escaped, every `>` and `<` is stripped, and `&`, `|` and `"` pass
through unchanged — the two-character reserved entries `&&`, `||` and `\"`
can never match the character-level scan. -/
theorem postprocess_query_escapes (q qs : Dict String JSON) (s : String)
    (h1 : dget q "query_string" = some (JSON.obj qs))
    (h2 : dget qs "query" = some (JSON.str s)) :
    postprocess_query (some q) = some (dset q "query_string" (JSON.obj
      (dset qs "query" (JSON.str (String.mk (escapeMap s.toList)))))) := by
  rw [postprocess_query, h1]
  dsimp only
  rw [h2]
  dsimp only
  rw [postprocessQueryString_eq_escapeMap]

/-- Witness for C3 (amended) at a concrete query dict. -/
theorem postprocess_query_escapes_witness :
    (dget [("query_string", JSON.obj [("query", JSON.str "a+b x>y<z")])]
        "query_string" = some (JSON.obj [("query", JSON.str "a+b x>y<z")])
      ∧ dget [("query", JSON.str "a+b x>y<z")] "query" =
          some (JSON.str "a+b x>y<z"))
    ∧ postprocess_query
        (some [("query_string", JSON.obj [("query", JSON.str "a+b x>y<z")])]) =
      some (dset [("query_string", JSON.obj [("query", JSON.str "a+b x>y<z")])]
        "query_string" (JSON.obj (dset [("query", JSON.str "a+b x>y<z")]
          "query" (JSON.str (String.mk
            (escapeMap ("a+b x>y<z" : String).toList)))))) :=
  ⟨⟨rfl, rfl⟩, postprocess_query_escapes
    [("query_string", JSON.obj [("query", JSON.str "a+b x>y<z")])]
    [("query", JSON.str "a+b x>y<z")] "a+b x>y<z" rfl rfl⟩

/-- Counterexample to C3 as stated: the reserved operator `&&` is never
escaped — `a&&b` comes back verbatim, with no backslash inserted, because the
scan intersects the set of single characters of the text with the reserved
strings and `"&&"` (length two) can never be a member. -/
theorem postprocess_query_escapes_counterexample :
    postprocess_query
        (some [("query_string", JSON.obj [("query", JSON.str "a&&b")])]) =
      some [("query_string", JSON.obj [("query", JSON.str "a&&b")])] := rfl

/-! ### Descendants: membership, recursion equation, union, termination -/

/-- The descendant set of a region at a given fuel (empty on failure). -/
def descFin (m : RegionMeta) (fuel : Nat) (c : Int) : Finset Int :=
  ((m.descendants fuel c).toOption.getD []).toFinset

lemma self_mem_iterDescendants (m : RegionMeta) (fuel : Nat) (r : Int)
    (l : List Int) (h : iterDescendants m fuel r = .ok l) : r ∈ l := by
  cases fuel with
  | zero => rw [iterDescendants] at h; cases h
  | succ fuel =>
    rw [iterDescendants] at h
    split at h
    · cases h
    · next cs hc =>
      cases hl : iterDescChildren (iterDescendants m fuel) cs with
      | error e => rw [hl] at h; simp [Except.map] at h
      | ok t =>
        rw [hl] at h
        simp only [Except.map, Except.ok.injEq] at h
        exact h ▸ List.mem_cons_self r t

lemma dedup_toFinset [DecidableEq α] (l : List α) :
    l.dedup.toFinset = l.toFinset := by
  ext x
  simp [List.mem_toFinset, List.mem_dedup]

lemma dget_mem [BEq K] [LawfulBEq K] (l : Dict K V) (k : K) (v : V)
    (h : dget l k = some v) : (k, v) ∈ l := by
  rw [dget] at h
  cases hf : l.find? (fun p => p.1 == k) with
  | none => rw [hf] at h; cases h
  | some p =>
    rw [hf] at h
    simp at h
    have hm := List.mem_of_find?_eq_some hf
    have hp := List.find?_some hf
    have hpk : p.1 = k := by simpa using hp
    have : p = (k, v) := Prod.ext hpk h
    rw [← this]
    exact hm

lemma iterDescChildren_toFinset (m : RegionMeta) (fuel : Nat) :
    ∀ cs t, iterDescChildren (iterDescendants m fuel) cs = .ok t →
      (∀ c ∈ cs, ∃ tc, iterDescendants m fuel c = .ok tc) ∧
      t.toFinset = cs.toFinset.biUnion (fun c => descFin m fuel c) := by
  intro cs
  induction cs with
  | nil =>
    intro t h
    rw [iterDescChildren] at h
    simp only [Except.ok.injEq] at h
    subst h
    simp
  | cons c cs ih =>
    intro t h
    rw [iterDescChildren] at h
    split at h
    · cases h
    · next t1 heq1 =>
      split at h
      · cases h
      · next rest heq2 =>
        simp only [Except.ok.injEq] at h
        subst h
        obtain ⟨hall, hfin⟩ := ih rest heq2
        refine ⟨?_, ?_⟩
        · intro d hd
          rcases List.mem_cons.mp hd with hdc | hdcs
          · exact ⟨t1, hdc ▸ heq1⟩
          · exact hall d hdcs
        · have hdesc : descFin m fuel c = t1.toFinset := by
            rw [descFin, RegionMeta.descendants, heq1]
            simp [Except.map, Except.toOption, dedup_toFinset]
          have hct1 : c ∈ t1 := self_mem_iterDescendants m fuel c t1 heq1
          rw [List.toFinset_append, List.toFinset_cons, hfin,
            List.toFinset_cons, Finset.biUnion_insert, hdesc]
          rw [Finset.insert_eq, Finset.union_assoc]
          exact Finset.union_eq_right.mpr
            (by simp [List.mem_toFinset.mpr hct1])

lemma iterDescChildren_mono_of (m : RegionMeta) (fuel fuel' : Nat)
    (hA : ∀ r l, iterDescendants m fuel r = .ok l →
      iterDescendants m fuel' r = .ok l) :
    ∀ cs t, iterDescChildren (iterDescendants m fuel) cs = .ok t →
      iterDescChildren (iterDescendants m fuel') cs = .ok t := by
  intro cs
  induction cs with
  | nil => intro t h; rw [iterDescChildren] at h ⊢; exact h
  | cons c cs ih =>
    intro t h
    rw [iterDescChildren] at h ⊢
    split at h
    · cases h
    · next t1 heq1 =>
      split at h
      · cases h
      · next rest heq2 =>
        simp only [hA c t1 heq1, ih rest heq2]
        exact h

lemma iterDescendants_mono (m : RegionMeta) :
    ∀ fuel fuel', fuel ≤ fuel' → ∀ r l,
      iterDescendants m fuel r = .ok l →
      iterDescendants m fuel' r = .ok l := by
  intro fuel
  induction fuel with
  | zero => intro fuel' _ r l h; rw [iterDescendants] at h; cases h
  | succ fuel ih =>
    intro fuel' hle r l h
    obtain ⟨f', rfl⟩ : ∃ f', fuel' = f' + 1 := ⟨fuel' - 1, by omega⟩
    have hA := ih f' (by omega)
    rw [iterDescendants] at h ⊢
    split at h
    · cases h
    · next cs hc =>
      cases hl : iterDescChildren (iterDescendants m fuel) cs with
      | error e => rw [hl] at h; simp [Except.map] at h
      | ok t =>
        rw [hl] at h
        simp only [hc, iterDescChildren_mono_of m fuel f' hA cs t hl]
        exact h

lemma iterDescendants_total (m : RegionMeta) (rank : Int → Nat)
    (hclosed : ∀ r cs, dget m.children_ids r = some cs →
      ∀ c ∈ cs, (dget m.children_ids c).isSome ∧ rank c < rank r) :
    ∀ r, (dget m.children_ids r).isSome →
      ∃ l, iterDescendants m (rank r + 1) r = .ok l := by
  have H : ∀ n r, rank r < n → (dget m.children_ids r).isSome →
      ∃ l, iterDescendants m (rank r + 1) r = .ok l := by
    intro n
    induction n with
    | zero => intro r h; omega
    | succ n ih =>
      intro r hrn hsome
      obtain ⟨cs, hcs⟩ := Option.isSome_iff_exists.mp hsome
      have hlist : ∀ cs', (∀ c ∈ cs', c ∈ cs) →
          ∃ t, iterDescChildren (iterDescendants m (rank r)) cs' = .ok t := by
        intro cs'
        induction cs' with
        | nil => intro _; exact ⟨[], by rw [iterDescChildren]⟩
        | cons c cs' ihl =>
          intro hsub
          have hc := hsub c (List.mem_cons_self c cs')
          obtain ⟨hcsome, hcrank⟩ := hclosed r cs hcs c hc
          obtain ⟨lc, hlc⟩ := ih c (by omega) hcsome
          have hlc2 : iterDescendants m (rank r) c = .ok lc :=
            iterDescendants_mono m (rank c + 1) (rank r) (by omega) c lc hlc
          obtain ⟨t, ht⟩ := ihl (fun d hd => hsub d (List.mem_cons_of_mem c hd))
          refine ⟨(c :: lc) ++ t, ?_⟩
          rw [iterDescChildren]
          simp only [hlc2, ht]
      obtain ⟨t, ht⟩ := hlist cs (fun c h => h)
      refine ⟨r :: t, ?_⟩
      rw [iterDescendants]
      have hch : m.children r = some cs := hcs
      simp only [hch, ht, Except.map]
  exact fun r h => H (rank r + 1) r (by omega) h

/-- C4: in the fuel-indexed embedding of the recursive traversal:
(1) the result is inclusive — `r ∈ descendants(r)`;
(2) `descendants(r) = {r} ∪ ⋃_{c ∈ children(r)} descendants(c)`, each child's
traversal succeeding;
(3) on set input the union distributes —
`descendants({a,b}) = descendants(a) ∪ descendants(b)`;
(4) on a finite hierarchy that admits a rank function decreasing along child
edges and whose child ids all have entries (a valid finite tree), the
traversal terminates: fuel `rank r + 1` suffices for the call to succeed. -/
theorem descendants_properties (m : RegionMeta) :
    (∀ fuel r s, m.descendants fuel r = .ok s → r ∈ s)
    ∧ (∀ fuel r cs s, m.descendants (fuel + 1) r = .ok s →
        m.children r = some cs →
        s.toFinset = insert r (cs.toFinset.biUnion (fun c => descFin m fuel c))
        ∧ ∀ c ∈ cs, ∃ sc, m.descendants fuel c = .ok sc)
    ∧ (∀ fuel a b sa sb, m.descendants fuel a = .ok sa →
        m.descendants fuel b = .ok sb →
        m.descendantsSet fuel [a, b] = .ok (sa.toFinset ∪ sb.toFinset))
    ∧ (∀ rank : Int → Nat,
        (∀ r cs, dget m.children_ids r = some cs →
          ∀ c ∈ cs, (dget m.children_ids c).isSome ∧ rank c < rank r) →
        ∀ r, (dget m.children_ids r).isSome →
          ∃ s, m.descendants (rank r + 1) r = .ok s) := by
  refine ⟨?_, ?_, ?_, ?_⟩
  · intro fuel r s h
    rw [RegionMeta.descendants] at h
    cases hi : iterDescendants m fuel r with
    | error e => rw [hi] at h; simp [Except.map] at h
    | ok l =>
      rw [hi] at h
      simp only [Except.map, Except.ok.injEq] at h
      exact h ▸ List.mem_dedup.mpr (self_mem_iterDescendants m fuel r l hi)
  · intro fuel r cs s h hch
    rw [RegionMeta.descendants] at h
    cases hi : iterDescendants m (fuel + 1) r with
    | error e => rw [hi] at h; simp [Except.map] at h
    | ok l =>
      rw [hi] at h
      simp only [Except.map, Except.ok.injEq] at h
      rw [iterDescendants] at hi
      simp only [hch] at hi
      cases hl : iterDescChildren (iterDescendants m fuel) cs with
      | error e => rw [hl] at hi; simp [Except.map] at hi
      | ok t =>
        rw [hl] at hi
        simp only [Except.map, Except.ok.injEq] at hi
        obtain ⟨hall, hfin⟩ := iterDescChildren_toFinset m fuel cs t hl
        constructor
        · rw [← h, dedup_toFinset, ← hi, List.toFinset_cons, hfin]
        · intro c hc
          obtain ⟨tc, htc⟩ := hall c hc
          exact ⟨tc.dedup, by rw [RegionMeta.descendants, htc]; rfl⟩
  · intro fuel a b sa sb ha hb
    rw [RegionMeta.descendants] at ha hb
    cases hia : iterDescendants m fuel a with
    | error e => rw [hia] at ha; simp [Except.map] at ha
    | ok la =>
      cases hib : iterDescendants m fuel b with
      | error e => rw [hib] at hb; simp [Except.map] at hb
      | ok lb =>
        rw [hia] at ha
        rw [hib] at hb
        simp only [Except.map, Except.ok.injEq] at ha hb
        rw [RegionMeta.descendantsSet, descendantsAux]
        simp only [hia]
        rw [descendantsAux]
        simp only [hib]
        rw [descendantsAux]
        rw [← ha, ← hb]
        simp [dedup_toFinset, Finset.union_assoc]
  · intro rank hclosed r hsome
    obtain ⟨l, hl⟩ := iterDescendants_total m rank hclosed r hsome
    exact ⟨l.dedup, by rw [RegionMeta.descendants, hl]; rfl⟩

/-- A small concrete hierarchy: `1 → {2, 3}`, `2 → {4}`, `3, 4` leaves. -/
def sampleMeta : RegionMeta where
  background_id := 0
  root_id := some 1
  name_ := [(1, "root"), (2, "a"), (3, "b"), (4, "c")]
  st_level := []
  parent_id := []
  children_ids := [(1, [2, 3]), (2, [4]), (3, []), (4, [])]

/-- A rank function decreasing along the child edges of `sampleMeta`. -/
def sampleRank : Int → Nat :=
  fun i => if i = 1 then 3 else if i = 2 then 2 else if i = 4 then 1 else 0

/-- Witness for C4 on the concrete hierarchy. -/
theorem descendants_properties_witness :
    1 ∈ ([1, 2, 4, 3] : List Int)
    ∧ (([1, 2, 4, 3] : List Int).toFinset =
        insert 1 (([2, 3] : List Int).toFinset.biUnion
          (fun c => descFin sampleMeta 2 c)))
    ∧ sampleMeta.descendantsSet 3 [1, 4] =
        .ok (([1, 2, 4, 3] : List Int).toFinset ∪ ([4] : List Int).toFinset)
    ∧ ∃ s, sampleMeta.descendants (sampleRank 1 + 1) 1 = .ok s := by
  have hvalid : ∀ r cs, dget sampleMeta.children_ids r = some cs →
      ∀ c ∈ cs, (dget sampleMeta.children_ids c).isSome ∧
        sampleRank c < sampleRank r := by
    intro r cs hcs c hc
    have hmem := dget_mem _ _ _ hcs
    simp only [sampleMeta, List.mem_cons, List.not_mem_nil, or_false,
      Prod.mk.injEq] at hmem
    rcases hmem with ⟨hr, hcs'⟩ | ⟨hr, hcs'⟩ | ⟨hr, hcs'⟩ | ⟨hr, hcs'⟩ <;>
      subst hr <;> subst hcs'
    · rcases List.mem_cons.mp hc with h1 | h1
      · subst h1; decide
      · have h2 : c = 3 := by simpa using h1
        subst h2; decide
    · have h1 : c = 4 := by simpa using hc
      subst h1; decide
    · exact absurd hc (List.not_mem_nil c)
    · exact absurd hc (List.not_mem_nil c)
  exact ⟨(descendants_properties sampleMeta).1 3 1 [1, 2, 4, 3] rfl,
    ((descendants_properties sampleMeta).2.1 2 1 [2, 3] [1, 2, 4, 3]
      rfl rfl).1,
    (descendants_properties sampleMeta).2.2.1 3 1 4 [1, 2, 4, 3] [4] rfl rfl,
    (descendants_properties sampleMeta).2.2.2 sampleRank hvalid 1 rfl⟩

/-! ### C5: identity fallbacks of region expansion -/

/-- C5 (amended): the enumerated identity fallbacks hold — an unknown name
returns `[name]`; a known (non-zero-id) name whose computed named-descendant
list is empty returns `[name]` (a defensive branch: in a well-formed index
the found id is its own named descendant, so the guard cannot actually fire);
`get_descendants_id` returns the singleton of the original value when the id
does not parse as an integer or when the file is missing or corrupt.  But
`get_descendants_names` itself is not exception-free: `load_names_mapping`
sits outside the `try`, so a missing/corrupt hierarchy file propagates — see
the counterexample. -/
theorem get_descendants_fallbacks :
    (∀ (f : FileState) (id_to_br : Dict Int String) (fuel : Nat)
        (incoming : String),
      load_names_mapping f = .ok id_to_br →
      id_to_br.reverse.find? (fun p => p.2 == incoming.toLower) = none →
      get_descendants_names incoming f fuel = .ok [incoming])
    ∧ (∀ (f : FileState) (id_to_br : Dict Int String) (fuel : Nat)
        (incoming : String) (rid : Int) (ds : List PyVal),
      load_names_mapping f = .ok id_to_br →
      (id_to_br.reverse.find? (fun p => p.2 == incoming.toLower)).map
        (fun p => p.1) = some rid →
      get_descendants_id (.vint rid) f fuel = .ok ds →
      (∀ n : Int, PyVal.vint n ∈ ds → dget id_to_br n = none) →
      get_descendants_names incoming f fuel = .ok [incoming])
    ∧ (∀ (b : PyVal) (f : FileState) (fuel : Nat), pyInt b = none →
        get_descendants_id b f fuel = .ok [b])
    ∧ (∀ (b : PyVal) (fuel : Nat),
        get_descendants_id b .missing fuel = .ok [b])
    ∧ (∀ (b : PyVal) (fuel : Nat),
        get_descendants_id b .corrupt fuel = .ok [b]) := by
  refine ⟨?_, ?_, ?_, ?_, ?_⟩
  · intro f id_to_br fuel incoming hload hfind
    rw [get_descendants_names]
    simp [hload, hfind]
  · intro f id_to_br fuel incoming rid ds hload hfind hgdi hnames
    rw [get_descendants_names]
    simp only [hload]
    simp only [hfind]
    by_cases h0 : rid = 0
    · rw [if_pos h0]
    · rw [if_neg h0]
      simp only [hgdi]
      have hempty : List.filterMap (fun d =>
          match d with
          | PyVal.vint n => dget id_to_br n
          | PyVal.vstr _ => none) ds = [] := by
        rw [List.filterMap_eq_nil_iff]
        intro d hd
        cases d with
        | vint n => exact hnames n hd
        | vstr s2 => rfl
      rw [hempty]
      rfl
  · intro b f fuel hp
    rw [get_descendants_id]
    simp only [hp]
  · intro b fuel
    rw [get_descendants_id]
    cases hp : pyInt b with
    | none => rfl
    | some n => rfl
  · intro b fuel
    rw [get_descendants_id]
    cases hp : pyInt b with
    | none => rfl
    | some n => rfl

/-- Witness for C5 (amended) at concrete inputs: an unknown name on an empty
index, a known non-zero-id name (following the dead defensive branch through
its guard shape at the vacuous hypothesis side is not instantiable — the
remaining conjuncts are exercised), a non-integer id, and both file-failure
modes. -/
theorem get_descendants_fallbacks_witness :
    (load_names_mapping tinyHierarchyFile = .ok []
      ∧ ([] : Dict Int String).reverse.find?
          (fun p => p.2 == ("Unknown Region" : String).toLower) = none
      ∧ pyInt (.vstr "not-a-int") = none)
    ∧ get_descendants_names "Unknown Region" tinyHierarchyFile 1 = .ok ["Unknown Region"]
    ∧ get_descendants_id (.vstr "not-a-int") tinyHierarchyFile 1 =
        .ok [.vstr "not-a-int"]
    ∧ get_descendants_id (.vint 68) .missing 1 = .ok [.vint 68]
    ∧ get_descendants_id (.vint 68) .corrupt 1 = .ok [.vint 68] :=
  ⟨⟨rfl, rfl, rfl⟩,
    get_descendants_fallbacks.1 tinyHierarchyFile [] 1 "Unknown Region" rfl rfl,
    get_descendants_fallbacks.2.2.1 (.vstr "not-a-int") tinyHierarchyFile 1 rfl,
    get_descendants_fallbacks.2.2.2.1 (.vint 68) 1,
    get_descendants_fallbacks.2.2.2.2 (.vint 68) 1⟩

/-- Counterexample to C5's preamble "region expansion never raises":
`get_descendants_names` calls `load_names_mapping` outside any `try`, so a
missing hierarchy file propagates the `IOError` instead of degrading. -/
theorem get_descendants_fallbacks_counterexample :
    get_descendants_names "thalamus" .missing 1 = .error .ioError := rfl

/-! ### C8: save/load round-trip; C9: children lookup -/

/-- C8 (amended): for every hierarchy whose `root_id` is an integer, loading
the saved configuration succeeds and reproduces the names, st_level,
parent_id and children_ids maps and the root_id.  (When `root_id` is `None`
the loader's int-key conversion loop crashes — see the counterexample.) -/
theorem save_load_roundtrip (m : RegionMeta) (r : Int)
    (h : m.root_id = some r) :
    ∃ m2, RegionMeta.load_config (.good m.save_config) = .ok m2
      ∧ m2.root_id = m.root_id
      ∧ m2.name_ = m.name_
      ∧ m2.st_level = m.st_level
      ∧ m2.parent_id = m.parent_id
      ∧ m2.children_ids = m.children_ids := by
  refine ⟨{ background_id := 0, root_id := some r, name_ := m.name_,
            st_level := m.st_level, parent_id := m.parent_id,
            children_ids := m.children_ids }, ?_, h.symm, rfl, rfl, rfl, rfl⟩
  rw [RegionMeta.load_config]
  dsimp only [RegionMeta.save_config]
  rw [h]

/-- Witness for C8 (amended) on the concrete hierarchy. -/
theorem save_load_roundtrip_witness :
    sampleMeta.root_id = some 1
    ∧ ∃ m2, RegionMeta.load_config (.good sampleMeta.save_config) = .ok m2
      ∧ m2.root_id = sampleMeta.root_id
      ∧ m2.name_ = sampleMeta.name_
      ∧ m2.st_level = sampleMeta.st_level
      ∧ m2.parent_id = sampleMeta.parent_id
      ∧ m2.children_ids = sampleMeta.children_ids :=
  ⟨rfl, save_load_roundtrip sampleMeta 1 rfl⟩

/-- Counterexample to C8 as stated: a freshly constructed `RegionMeta()` has
`root_id = None`; saving writes `null`, and loading then runs
`{int(k): v for k, v in None.items()}`, dying with an `AttributeError` — the
round-trip does not succeed for every hierarchy. -/
theorem save_load_roundtrip_counterexample :
    RegionMeta.load_config (.good (RegionMeta.init 0).save_config) =
      .error .attributeError := rfl

/-- C9 (amended): on a loaded hierarchy, `children` returns exactly the
stored direct-children list, in insertion order — in particular the empty
tuple, without raising, for a valid childless id whose `children_ids` entry
is `[]` — and raises `KeyError` (modelled as `none`) exactly for ids absent
from the `children_ids` map, rather than returning an empty sequence. -/
theorem children_spec (cfg : SavedConfig) (rid : Int)
    (h : cfg.root_id = some rid) :
    ∃ m, RegionMeta.load_config (.good cfg) = .ok m
      ∧ (∀ r l, dget cfg.children_ids r = some l → m.children r = some l)
      ∧ (∀ r, dget cfg.children_ids r = none → m.children r = none) := by
  refine ⟨{ background_id := 0, root_id := some rid, name_ := cfg.names,
            st_level := cfg.st_level, parent_id := cfg.parent_id,
            children_ids := cfg.children_ids }, ?_, fun r l hl => hl,
          fun r hl => hl⟩
  rw [RegionMeta.load_config]
  rw [h]

/-- Witness for C9 (amended): the loaded sample hierarchy answers a leaf id
with the empty tuple and an unknown id with a `KeyError`. -/
theorem children_spec_witness :
    (sampleMeta.save_config.root_id = some 1
      ∧ dget sampleMeta.save_config.children_ids 3 = some []
      ∧ dget sampleMeta.save_config.children_ids 99 = none)
    ∧ ∃ m, RegionMeta.load_config (.good sampleMeta.save_config) = .ok m
      ∧ (∀ r l, dget sampleMeta.save_config.children_ids r = some l →
          m.children r = some l)
      ∧ (∀ r, dget sampleMeta.save_config.children_ids r = none →
          m.children r = none) :=
  ⟨⟨rfl, rfl, rfl⟩, children_spec sampleMeta.save_config 1 rfl⟩

/-- Counterexample to C9 as stated: `children` on an id unknown to the
hierarchy raises `KeyError` (`none` here) instead of returning an empty
sequence; the repository's own test expects this `KeyError`. -/
theorem children_spec_counterexample :
    (RegionMeta.init 0).children 5 = none
    ∧ ¬ ((RegionMeta.init 0).children 5 = some []) := by
  constructor
  · rfl
  · intro h
    cases h

/-! ### C7: metadata fusion -/

lemma dget_cons [BEq K] [LawfulBEq K] (k' : K) (v' : V) (rest : Dict K V)
    (k : K) :
    dget ((k', v') :: rest) k = if k' == k then some v' else dget rest k := by
  by_cases h : (k' == k) = true
  · simp [dget, List.find?, h]
  · simp only [Bool.not_eq_true] at h
    simp [dget, List.find?, h]

/-- Lookup in the graph of a function over a key list. -/
lemma dget_graph [BEq K] [LawfulBEq K] (keys : List K) (g : K → V) (x : K)
    (hx : x ∈ keys) :
    dget (keys.map (fun a => (a, g a))) x = some (g x) := by
  induction keys with
  | nil => cases hx
  | cons a ks ih =>
    rw [List.map_cons, dget_cons]
    by_cases h : (a == x) = true
    · rw [if_pos h]
      have ha : a = x := eq_of_beq h
      rw [ha]
    · rw [if_neg h]
      rcases List.mem_cons.mp hx with h1 | h1
      · subst h1
        simp at h
      · exact ih h1

lemma attachAbstracts_ok (contexts : List Context)
    (ab : Dict String (Option String)) (g : Context → Option String)
    (h : ∀ c ∈ contexts, dget ab c.article_id = some (g c)) :
    attachAbstracts contexts ab = .ok (contexts.map (fun c => (c, g c))) := by
  induction contexts with
  | nil => rfl
  | cons c cs ih =>
    rw [attachAbstracts]
    simp only [h c (List.mem_cons_self c cs),
      ih (fun d hd => h d (List.mem_cons_of_mem c hd))]
    rfl

lemma fuseLoop_ok (cc : Dict (Option String) (Option Int))
    (jn : Dict (Option String) (Option String))
    (impf : Dict (Option String) (Option Rat)) :
    ∀ (enriched : List (Context × Option String)) (i : Nat),
    (∀ p ∈ enriched, (dget impf p.1.journal).isSome) →
    ∃ out, fuseLoop cc jn impf enriched i = .ok out
      ∧ out.length = enriched.length
      ∧ ∀ j p, enriched.get? j = some p → ∃ q, out.get? j = some q
          ∧ q.article_id = p.1.article_id
          ∧ q.paragraph = p.1.text
          ∧ q.context_id = i + j
          ∧ q.reranking_score = none
          ∧ q.abstract = p.2
          ∧ q.journal_name = (dget jn p.1.journal).join
          ∧ q.impact_factor = (dget impf p.1.journal).join
          ∧ q.cited_by = (dget cc p.1.doi).join := by
  intro enriched
  induction enriched with
  | nil =>
    intro i _
    refine ⟨[], by rw [fuseLoop], rfl, ?_⟩
    intro j p hj
    simp at hj
  | cons pa rest ih =>
    intro i h
    obtain ⟨c, ab⟩ := pa
    obtain ⟨v, hv⟩ := Option.isSome_iff_exists.mp
      (h (c, ab) (List.mem_cons_self _ rest))
    obtain ⟨out, hout, hlen, hcorr⟩ :=
      ih (i + 1) (fun p hp => h p (List.mem_cons_of_mem _ hp))
    refine ⟨{ article_title := c.title
              section_ := c.section_
              paragraph := c.text
              journal_issn := c.journal
              date := c.date
              article_id := c.article_id
              ds_document_id := c.document_id
              article_doi := c.doi
              pubmed_id := c.pubmed_id
              article_authors := c.authors
              article_type := c.article_type
              context_id := i
              reranking_score := none
              abstract := ab
              journal_name := (dget jn c.journal).join
              impact_factor := v
              cited_by := (dget cc c.doi).join } :: out, ?_, by simp [hlen], ?_⟩
    · rw [fuseLoop]
      simp only [hv, hout]
    · intro j p hj
      cases j with
      | zero =>
        simp only [List.get?] at hj
        injection hj with hj
        subst hj
        refine ⟨_, rfl, rfl, rfl, by simp, rfl, rfl, rfl, ?_, rfl⟩
        rw [hv]
        rfl
      | succ j =>
        simp only [List.get?] at hj
        obtain ⟨q, hq, h1, h2, h3, h4, h5, h6, h7, h8⟩ := hcorr j p hj
        exact ⟨q, hq, h1, h2, by omega, h4, h5, h6, h7, h8⟩

/-- C7: the fusion stage of the `retrieval` endpoint (no-reranker path),
against the spec-modelled `retrieve_metadata`, produces exactly one enriched
record per input context, in input order, with `context_id = i`; every
metadata lookup miss — including a null `journal` issn, which yields a null
journal name and a null impact factor regardless of the external-API flag,
and the entire journal-name/citation maps being absent when that flag is
off — resolves to `none` on the record, never to an exception. -/
theorem retrieval_fusion_spec (contexts : List Context) (oracle : MetaOracle)
    (external_apis : Bool) :
    ∃ out, retrievalFusion contexts
        (retrieve_metadata_abstracts contexts oracle)
        (retrieve_metadata_rest contexts external_apis oracle) = .ok out
      ∧ out.length = contexts.length
      ∧ ∀ i c, contexts.get? i = some c → ∃ q, out.get? i = some q
          ∧ q.article_id = c.article_id
          ∧ q.paragraph = c.text
          ∧ q.context_id = i
          ∧ q.reranking_score = none
          ∧ q.abstract = oracle.abstract c.article_id
          ∧ q.journal_name =
              (if external_apis then c.journal.bind oracle.journal_name
               else none)
          ∧ q.impact_factor = c.journal.bind oracle.impact
          ∧ q.cited_by =
              (if external_apis then c.doi.bind oracle.citation else none) := by
  have habs : ∀ c ∈ contexts,
      dget (retrieve_metadata_abstracts contexts oracle) c.article_id =
        some (oracle.abstract c.article_id) := by
    intro c hc
    rw [retrieve_metadata_abstracts]
    exact dget_graph _ _ _
      (List.mem_dedup.mpr (List.mem_map_of_mem (fun x => x.article_id) hc))
  have hattach := attachAbstracts_ok contexts _
    (fun c => oracle.abstract c.article_id) habs
  have himpf : ∀ c ∈ contexts,
      dget (retrieve_metadata_rest contexts external_apis
          oracle).get_impact_factors c.journal =
        some (c.journal.bind oracle.impact) := by
    intro c hc
    rw [retrieve_metadata_rest]
    exact dget_graph _ _ _
      (List.mem_dedup.mpr (List.mem_map_of_mem (fun x => x.journal) hc))
  obtain ⟨out, hout, hlen, hcorr⟩ :=
    fuseLoop_ok
      ((retrieve_metadata_rest contexts external_apis
        oracle).get_citation_count.getD [])
      ((retrieve_metadata_rest contexts external_apis
        oracle).get_journal_name.getD [])
      ((retrieve_metadata_rest contexts external_apis
        oracle).get_impact_factors)
      (contexts.map (fun c => (c, oracle.abstract c.article_id))) 0
      (by
        intro p hp
        obtain ⟨c, hc, hpc⟩ := List.mem_map.mp hp
        rw [← hpc]
        rw [himpf c hc]
        rfl)
  refine ⟨out, ?_, by rw [hlen, List.length_map], ?_⟩
  · rw [retrievalFusion]
    simp only [hattach]
    exact hout
  · intro i c hc
    have henr : (contexts.map
        (fun c => (c, oracle.abstract c.article_id))).get? i =
        some (c, oracle.abstract c.article_id) := by
      rw [List.get?_map, hc]
      rfl
    obtain ⟨q, hq, h1, h2, h3, h4, h5, h6, h7, h8⟩ := hcorr i _ henr
    refine ⟨q, hq, h1, h2, by omega, h4, h5, ?_, ?_, ?_⟩
    · rw [h6]
      cases hext : external_apis with
      | false =>
        rw [retrieve_metadata_rest]
        rfl
      | true =>
        rw [retrieve_metadata_rest]
        dsimp only
        rw [if_pos rfl, Option.getD_some, dget_graph _ _ _
          (List.mem_dedup.mpr (List.mem_map_of_mem (fun x => x.journal)
            (List.get?_mem hc)))]
        rfl
    · rw [h7, himpf c (List.get?_mem hc)]
      rfl
    · rw [h8]
      cases hext : external_apis with
      | false =>
        rw [retrieve_metadata_rest]
        rfl
      | true =>
        rw [retrieve_metadata_rest]
        dsimp only
        rw [if_pos rfl, Option.getD_some, dget_graph _ _ _
          (List.mem_dedup.mpr (List.mem_map_of_mem (fun x => x.doi)
            (List.get?_mem hc)))]
        rfl

/-- A concrete metadata oracle. -/
def sampleOracle : MetaOracle where
  abstract := fun a => if a = "A1" then some "abstract one" else none
  citation := fun d => if d = "D1" then some 12 else none
  journal_name := fun j => if j = "J1" then some "Journal One" else none
  impact := fun j => if j = "J1" then some 3 else none

/-- A context with full metadata. -/
def sampleContext1 : Context where
  article_id := "A1"
  doi := some "D1"
  pubmed_id := some "P1"
  title := "T1"
  authors := ["X", "Y"]
  journal := some "J1"
  date := some "2020-01-01"
  section_ := "Methods"
  text := "body one"
  article_type := some "article"
  document_id := "doc1"

/-- A context with a null journal and null doi. -/
def sampleContext2 : Context where
  article_id := "A2"
  doi := none
  pubmed_id := none
  title := "T2"
  authors := []
  journal := none
  date := none
  section_ := "Results"
  text := "body two"
  article_type := none
  document_id := "doc2"

/-- Witness for C7 at a concrete batch (one full context, one with null
journal and doi), external APIs enabled. -/
theorem retrieval_fusion_spec_witness :
    ∃ out, retrievalFusion [sampleContext1, sampleContext2]
        (retrieve_metadata_abstracts [sampleContext1, sampleContext2]
          sampleOracle)
        (retrieve_metadata_rest [sampleContext1, sampleContext2] true
          sampleOracle) = .ok out
      ∧ out.length = ([sampleContext1, sampleContext2] : List Context).length
      ∧ ∀ i c, ([sampleContext1, sampleContext2] : List Context).get? i =
          some c → ∃ q, out.get? i = some q
          ∧ q.article_id = c.article_id
          ∧ q.paragraph = c.text
          ∧ q.context_id = i
          ∧ q.reranking_score = none
          ∧ q.abstract = sampleOracle.abstract c.article_id
          ∧ q.journal_name =
              (if true then c.journal.bind sampleOracle.journal_name
               else none)
          ∧ q.impact_factor = c.journal.bind sampleOracle.impact
          ∧ q.cited_by =
              (if true then c.doi.bind sampleOracle.citation else none) :=
  retrieval_fusion_spec [sampleContext1, sampleContext2] sampleOracle true

end Scholarag
